import Mathlib

/-!
Verification of the type-normalization and code-generation pipeline of
ts-to-proptypes: a shallow embedding of src/normalizePropType.ts,
src/extractPropsFromParameter.ts, src/core/parser.ts and src/core/generator.ts,
followed by theorems about the embedded functions.

The ts-morph `Type` objects consumed by the pipeline are modelled by the
inductive `Ty` below, one field per queryable property the code consults:
getText, isUnion, getUnionTypes, isArray, isTuple, getCallSignatures (its
length), isNumber, isString, isObject, isUndefined, isStringLiteral,
isNumberLiteral, isLiteral, getLiteralValue, and getProperties (each property
symbol reduced to its name, its SymbolFlags.Optional bit, and the type
returned by getTypeAtLocation).
-/

namespace TsToPropTypes

/-- Runtime value returned by ts-morph getLiteralValue(): a string, a number
(carried as Int: the classifier only passes numbers through, and the emitter
stringifies them as String() does on the integral literal values collected),
a boolean, the undefined value (getLiteralValue on a non-literal type), or a
value of any other runtime type (for example ts.PseudoBigInt), which fails the
"typeof value" test in the source. -/
inductive LitVal where
  | str (s : String)
  | num (n : Int)
  | bool (b : Bool)
  | undef
  | other
deriving DecidableEq

/-- The NormalizedPropType discriminated union of src/types/types.ts: kinds
"primitive" (with name), "array", "object", "function", "oneOf" (with literal
values), "oneOfType" (with member types), and "any". -/
inductive NormalizedPropType where
  | primitive (name : String)
  | array
  | object
  | func
  | oneOf (values : List LitVal)
  | oneOfType (types : List NormalizedPropType)
  | any

/-- A resolved type as queried by the pipeline; see the header comment.
Field order: text, isUnion, unionTypes, isArray, isTuple, callSignatures,
isNumber, isString, isObject, isUndefined, isStringLiteral, isNumberLiteral,
isLiteral, litValue, properties. -/
inductive Ty where
  | mk
    (text : String)
    (isUnion : Bool)
    (unionTypes : List Ty)
    (isArray : Bool)
    (isTuple : Bool)
    (callSignatures : Nat)
    (isNumber : Bool)
    (isString : Bool)
    (isObject : Bool)
    (isUndefined : Bool)
    (isStringLiteral : Bool)
    (isNumberLiteral : Bool)
    (isLiteral : Bool)
    (litValue : LitVal)
    (properties : List (String × Bool × Ty))

def Ty.text : Ty → String
  | .mk v _ _ _ _ _ _ _ _ _ _ _ _ _ _ => v

def Ty.isUnion : Ty → Bool
  | .mk _ v _ _ _ _ _ _ _ _ _ _ _ _ _ => v

def Ty.unionTypes : Ty → List Ty
  | .mk _ _ v _ _ _ _ _ _ _ _ _ _ _ _ => v

def Ty.isArray : Ty → Bool
  | .mk _ _ _ v _ _ _ _ _ _ _ _ _ _ _ => v

def Ty.isTuple : Ty → Bool
  | .mk _ _ _ _ v _ _ _ _ _ _ _ _ _ _ => v

def Ty.callSignatures : Ty → Nat
  | .mk _ _ _ _ _ v _ _ _ _ _ _ _ _ _ => v

def Ty.isNumber : Ty → Bool
  | .mk _ _ _ _ _ _ v _ _ _ _ _ _ _ _ => v

def Ty.isString : Ty → Bool
  | .mk _ _ _ _ _ _ _ v _ _ _ _ _ _ _ => v

def Ty.isObject : Ty → Bool
  | .mk _ _ _ _ _ _ _ _ v _ _ _ _ _ _ => v

def Ty.isUndefined : Ty → Bool
  | .mk _ _ _ _ _ _ _ _ _ v _ _ _ _ _ => v

def Ty.isStringLiteral : Ty → Bool
  | .mk _ _ _ _ _ _ _ _ _ _ v _ _ _ _ => v

def Ty.isNumberLiteral : Ty → Bool
  | .mk _ _ _ _ _ _ _ _ _ _ _ v _ _ _ => v

def Ty.isLiteral : Ty → Bool
  | .mk _ _ _ _ _ _ _ _ _ _ _ _ v _ _ => v

def Ty.litValue : Ty → LitVal
  | .mk _ _ _ _ _ _ _ _ _ _ _ _ _ v _ => v

def Ty.properties : Ty → List (String × Bool × Ty)
  | .mk _ _ _ _ _ _ _ _ _ _ _ _ _ _ v => v

/-! String helpers modelling the JavaScript string operations used by the
source: String.prototype.includes, and split on the regex /\s*\|\s*undefined/
of which only element 0 is consumed. -/

/-- Scan for an occurrence of sub starting at any position of cs. -/
def charsInclude (sub : List Char) : List Char → Bool
  | [] => sub.isPrefixOf []
  | c :: rest => sub.isPrefixOf (c :: rest) || charsInclude sub rest

/-- JavaScript String.prototype.includes, on the ASCII strings the pipeline
handles. -/
def strIncludes (s sub : String) : Bool :=
  charsInclude sub.toList s.toList

/-- JavaScript String.prototype.endsWith, on the ASCII strings the pipeline
handles. -/
def strEndsWith (s post : String) : Bool :=
  post.toList.reverse.isPrefixOf s.toList.reverse

/-- A character matched by the regex class \s (ASCII range). -/
def jsWs (c : Char) : Bool :=
  c == ' ' || c == '\t' || c == '\n' || c == '\r' || c == '\x0b' || c == '\x0c'

/-- Whether a match of the regex /\s*\|\s*undefined/ starts at the head of the
character list: optional whitespace, then the pipe, then optional whitespace,
then the literal "undefined". Because \s* before the pipe must stop at the
first non-whitespace character, the regex match is equivalent to this direct
check. -/
def undefMatchAt (cs : List Char) : Bool :=
  match cs.dropWhile jsWs with
  | '|' :: rest => "undefined".toList.isPrefixOf (rest.dropWhile jsWs)
  | _ => false

/-- Characters before the leftmost match of /\s*\|\s*undefined/; the whole
list when there is no match. This is element 0 of the JavaScript split. -/
def splitUndefHead : List Char → List Char
  | [] => []
  | c :: cs => if undefMatchAt (c :: cs) then [] else c :: splitUndefHead cs

/-- Element 0 of typeText.split(/\s*\|\s*undefined/). -/
def splitUndefText (s : String) : String :=
  String.mk (splitUndefHead s.toList)

theorem splitUndefHead_length_le (cs : List Char) :
    (splitUndefHead cs).length ≤ cs.length := by
  induction cs with
  | nil => simp [splitUndefHead]
  | cons c cs ih =>
    by_cases h : undefMatchAt (c :: cs) = true
    · simp [splitUndefHead, h]
    · simp only [splitUndefHead, if_neg h, List.length_cons]
      omega

theorem undefMatchAt_nil : undefMatchAt [] = false := rfl

theorem splitUndefHead_length_lt (cs : List Char)
    (h : ∃ n, undefMatchAt (cs.drop n) = true) :
    (splitUndefHead cs).length < cs.length := by
  induction cs with
  | nil =>
    obtain ⟨n, hn⟩ := h
    simp [undefMatchAt_nil] at hn
  | cons c cs ih =>
    by_cases hm : undefMatchAt (c :: cs) = true
    · simp [splitUndefHead, hm]
    · obtain ⟨n, hn⟩ := h
      match n with
      | 0 => exact absurd hn hm
      | Nat.succ m =>
        have := ih ⟨m, by simpa using hn⟩
        simp only [splitUndefHead, if_neg hm, List.length_cons]
        omega

theorem undefMatchAt_spaced (l : List Char) :
    undefMatchAt (' ' :: '|' :: ' ' :: 'u' :: 'n' :: 'd' :: 'e' :: 'f' ::
      'i' :: 'n' :: 'e' :: 'd' :: l) = true := by
  unfold undefMatchAt
  simp [List.dropWhile, jsWs, String.toList, List.isPrefixOf]

theorem undefMatchAt_unspaced (l : List Char) :
    undefMatchAt ('|' :: 'u' :: 'n' :: 'd' :: 'e' :: 'f' ::
      'i' :: 'n' :: 'e' :: 'd' :: l) = true := by
  unfold undefMatchAt
  simp [List.dropWhile, jsWs, String.toList, List.isPrefixOf]

theorem charsInclude_exists_drop (sub cs : List Char)
    (h : charsInclude sub cs = true) :
    ∃ n, sub.isPrefixOf (cs.drop n) = true := by
  induction cs with
  | nil => exact ⟨0, h⟩
  | cons c rest ih =>
    rcases Bool.or_eq_true _ _ |>.mp h with h1 | h1
    · exact ⟨0, h1⟩
    · obtain ⟨n, hn⟩ := ih h1
      exact ⟨n + 1, by simpa using hn⟩

theorem exists_undefMatchAt_of_includes (s : String)
    (h : (strIncludes s " | undefined" || strIncludes s "|undefined") = true) :
    ∃ n, undefMatchAt (s.toList.drop n) = true := by
  rcases Bool.or_eq_true _ _ |>.mp h with h1 | h1
  · obtain ⟨n, hn⟩ := charsInclude_exists_drop _ _ h1
    obtain ⟨post, hp⟩ := List.isPrefixOf_iff_prefix.mp hn
    refine ⟨n, ?_⟩
    rw [← hp]
    exact undefMatchAt_spaced post
  · obtain ⟨n, hn⟩ := charsInclude_exists_drop _ _ h1
    obtain ⟨post, hp⟩ := List.isPrefixOf_iff_prefix.mp hn
    refine ⟨n, ?_⟩
    rw [← hp]
    exact undefMatchAt_unspaced post

theorem splitUndefText_length_lt (s : String)
    (h : (strIncludes s " | undefined" || strIncludes s "|undefined") = true) :
    (splitUndefText s).length < s.length := by
  exact splitUndefHead_length_lt s.toList (exists_undefMatchAt_of_includes s h)

/-! The Type Classifier: normalizePropType of src/normalizePropType.ts
(the exported version at the top of the file, lines 4-122). -/

/-- The synthetic type object built in the optional-text branch of
normalizePropType (lines 13-24 of the source): its getText is the part of the
original text before the first /\s*\|\s*undefined/ match, isUnion, isArray,
isTuple, isNumber and isObject answer false, getCallSignatures is empty, and
isString answers whether the ORIGINAL text (captured by closure as typeText)
contains "string". The methods the object does not implement (isUndefined,
isStringLiteral, isNumberLiteral, isLiteral, getLiteralValue, getProperties)
are modelled as false/empty values: they are consulted only on union members
or after isUnion answers true, so they are never reached on this object. -/
def dummyTy (baseText fullText : String) : Ty :=
  .mk baseText false [] false false 0 false (strIncludes fullText "string")
    false false false false false .undef []

/-- Evaluation of normalizePropType at the synthetic object dummyTy base full;
the branch structure is the branch structure of normalizePropType with the
union branch gone (the object answers isUnion false) and the constant fields
substituted. The theorem normalizePropType_dummyTy below certifies that this
function agrees with running normalizePropType itself on dummyTy. The
recursion in the first branch terminates because the text before a
/\s*\|\s*undefined/ match is strictly shorter than the matched text. -/
def normalizeDummy (baseText fullText : String) : NormalizedPropType :=
  if (strIncludes baseText " | undefined" || strIncludes baseText "|undefined") = true then
    .oneOfType [normalizeDummy (splitUndefText baseText) baseText, .any]
  else if baseText == "boolean" then .primitive "boolean"
  else if baseText == "string" then .primitive "string"
  else if baseText == "number" then .primitive "number"
  else if strEndsWith baseText "[]" then .array
  else if strIncludes fullText "string" then .primitive "string"
  else .any
termination_by baseText.length
decreasing_by
  exact splitUndefText_length_lt baseText (by assumption)

/-- The literal-collection loop of normalizePropType (source lines 56-89): one
pass over the union members, pushing the literal value of each supported
member in order; none when a member is not a supported literal, in which case
the source sets allLiterals to false, breaks, and the collected values are
discarded. A string-literal or number-literal member pushes getLiteralValue()
unchecked (the casts on lines 61 and 63); a member whose text is "true" or
"false" pushes the corresponding boolean; any other isLiteral member pushes
its value only when typeof yields string, number or boolean (the try/catch of
lines 69-84: ts-morph getLiteralValue is a plain property read, so the catch
arm is unreachable and a non-literal value surfaces as undefined, which fails
the typeof test). -/
def collectLiterals : List Ty → Option (List LitVal)
  | [] => some []
  | u :: rest =>
    if u.isStringLiteral then (collectLiterals rest).map (fun vs => u.litValue :: vs)
    else if u.isNumberLiteral then (collectLiterals rest).map (fun vs => u.litValue :: vs)
    else if u.text == "true" then (collectLiterals rest).map (fun vs => LitVal.bool true :: vs)
    else if u.text == "false" then (collectLiterals rest).map (fun vs => LitVal.bool false :: vs)
    else if u.isLiteral then
      match u.litValue with
      | .str s => (collectLiterals rest).map (fun vs => LitVal.str s :: vs)
      | .num n => (collectLiterals rest).map (fun vs => LitVal.num n :: vs)
      | .bool b => (collectLiterals rest).map (fun vs => LitVal.bool b :: vs)
      | _ => none
    else none

theorem sizeOf_filter_le {α : Type} [SizeOf α] (p : α → Bool) (l : List α) :
    sizeOf (l.filter p) ≤ sizeOf l := by
  induction l with
  | nil => simp
  | cons a l ih =>
    rw [List.filter_cons]
    by_cases h : p a = true
    · simp only [if_pos h, List.cons.sizeOf_spec]
      omega
    · simp only [if_neg h, List.cons.sizeOf_spec]
      omega

mutual

/-- The exported normalizePropType (source lines 4-122), branch for branch:
the optional-text check first (returning oneOfType of the recursively
classified base text and any), then the three exact-text primitive checks,
then the union block (two-members-with-undefined special case, then the
literal collection, then oneOfType over all members), then array/tuple/
bracket-suffix, call signatures, isNumber, isString, isObject, and the any
fallback. The recursive call on the synthetic object of the first branch is
normalizeDummy; normalizePropType_dummyTy proves it equal to the direct
recursion. -/
def normalizePropType : Ty → NormalizedPropType
  | .mk typeText isUn uTys isArr isTup callSigs isNum isStr isObj
      _isUndef _isStrLit _isNumLit _isLit _litVal _props =>
    if (strIncludes typeText " | undefined" || strIncludes typeText "|undefined") = true then
      .oneOfType [normalizeDummy (splitUndefText typeText) typeText, .any]
    else if typeText == "boolean" then .primitive "boolean"
    else if typeText == "string" then .primitive "string"
    else if typeText == "number" then .primitive "number"
    else if isUn then
      if uTys.length == 2 && uTys.any (fun u => u.isUndefined) then
        .oneOfType (normalizeList (uTys.filter (fun u => !u.isUndefined)))
      else
        match collectLiterals uTys with
        | some vals =>
          if vals.length > 0 then .oneOf vals
          else .oneOfType (normalizeList uTys)
        | none => .oneOfType (normalizeList uTys)
    else if isArr || isTup || strEndsWith typeText "[]" then .array
    else if callSigs > 0 then .func
    else if isNum then .primitive "number"
    else if isStr then .primitive "string"
    else if isObj then .object
    else .any
termination_by t => sizeOf t
decreasing_by
  all_goals simp only [Ty.mk.sizeOf_spec]
  all_goals first
    | omega
    | exact Nat.lt_of_le_of_lt (sizeOf_filter_le _ _) (by omega)

/-- Mapping of normalizePropType over a list of union members (the .map calls
on source lines 51 and 97). -/
def normalizeList : List Ty → List NormalizedPropType
  | [] => []
  | t :: ts => normalizePropType t :: normalizeList ts
termination_by l => sizeOf l
decreasing_by
  all_goals
    simp only [List.cons.sizeOf_spec]
    omega

end

/-- Faithfulness of normalizeDummy: running normalizePropType on the synthetic
object of the optional-text branch is the same as normalizeDummy. The source
recursion on that object is therefore embedded without loss. -/
theorem normalizePropType_dummyTy (b f : String) :
    normalizePropType (dummyTy b f) = normalizeDummy b f := by
  conv_rhs => rw [normalizeDummy]
  simp only [dummyTy, normalizePropType]
  simp

/-! The Prop Extractor: extractPropsFromParameter of
src/extractPropsFromParameter.ts. -/

/-- The ParsedProp interface of src/interfaces/ParsedProp.ts. -/
structure ParsedProp where
  name : String
  type : NormalizedPropType
  required : Bool

/-- The inner recursive extractPropsFromType of extractPropsFromParameter
(source lines 25-64). Direct members are mapped to ParsedProps with
required = !optionalFlag && parentRequired; members whose type answers
isObject and not isArray are recursed into with that member's computed
required as the new parent flag, and the recursive results are appended after
the whole direct list ([...directProps, ...nestedProps]). The source carries
symbol/rawType metadata on the direct entries and strips it with a final map;
here the clean ParsedProp is built directly, which yields the same list. The
source filters the enriched entries and then flatMaps; the if-guard inside the
flatMap below performs the same selection, with the required flag recomputed
by the same formula. The membership proof from List.attach only serves the
termination argument. -/
def extractPropsFromType : Ty → Bool → List ParsedProp
  | .mk _ _ _ _ _ _ _ _ _ _ _ _ _ _ props, parentRequired =>
    (props.map (fun m =>
      { name := m.1, type := normalizePropType m.2.2,
        required := !m.2.1 && parentRequired })) ++
    (props.attach.flatMap (fun m =>
      if m.val.2.2.isObject && !m.val.2.2.isArray then
        extractPropsFromType m.val.2.2 (!m.val.2.1 && parentRequired)
      else []))
termination_by t => sizeOf t
decreasing_by
  obtain ⟨⟨n, opt, ty⟩, hm⟩ := m
  have h1 := List.sizeOf_lt_of_mem hm
  simp only [Prod.mk.sizeOf_spec, Ty.mk.sizeOf_spec] at h1 ⊢
  omega

/-- extractPropsFromParameter (source lines 15-67): extracts from the
parameter's resolved type with parentRequired defaulted to true. -/
def extractPropsFromParameter (paramType : Ty) : List ParsedProp :=
  extractPropsFromType paramType true

/-! The Declaration Locator: parseComponentDeclaration and its helpers from
src/core/parser.ts. Exported declarations are modelled by the shapes the code
distinguishes: function declarations (optional own name, parameter list, each
parameter reduced to its resolved type), arrow functions, variable
declarations (always named; the initializer either is an arrow function with
its parameters, or is not an arrow function), class declarations (optional own
name; type parameters each reduced to the optional resolved type of their
constraint), and any other declaration kind. -/

inductive Decl where
  | funcDecl (name : Option String) (params : List Ty)
  | arrowFunc (params : List Ty)
  | varDecl (name : String) (arrowInitParams : Option (List Ty))
  | classDecl (name : Option String) (typeParamConstraints : List (Option Ty))
  | otherDecl

/-- The ComponentInfo interface of src/core/parser.ts. -/
structure ComponentInfo where
  name : String
  props : List ParsedProp
  sourceFilePath : String

/-- Truthiness of the value returned by getName(): JavaScript treats both
undefined and the empty string as falsy in "if (name) return name". -/
def truthyName : Option String → Bool
  | none => false
  | some s => !(s == "")

/-- Node path.basename without a suffix argument, for the forward-slash paths
the tool passes around: the substring after the last separator. -/
def jsBasename (p : String) : String :=
  String.mk ((p.toList.reverse.takeWhile (fun c => !(c == '/'))).reverse)

/-- Node path.extname: from the last dot of the base name to the end, or the
empty string when there is no dot or the only dot is the leading character. -/
def jsExtname (p : String) : String :=
  let b := (jsBasename p).toList
  let afterLen := (b.reverse.takeWhile (fun c => !(c == '.'))).length
  if afterLen == b.length then ""
  else
    let dotPos := b.length - afterLen - 1
    if dotPos == 0 then "" else String.mk (b.drop dotPos)

/-- Node path.basename with a suffix argument: the suffix is removed when the
base name ends with it and is not equal to it. -/
def jsBasenameDropExt (p ext : String) : String :=
  let b := jsBasename p
  if !(b == ext) && strEndsWith b ext then
    String.mk (b.toList.take (b.toList.length - ext.toList.length))
  else b

/-- The fallback of determineComponentName (source lines 236-238):
filename.charAt(0).toUpperCase() + filename.slice(1) applied to the file's
base name with its extension stripped. Char.toUpper matches the JavaScript
toUpperCase on the ASCII names involved. -/
def capitalizedFileName (filePath : String) : String :=
  match (jsBasenameDropExt filePath (jsExtname filePath)).toList with
  | [] => ""
  | c :: rest => String.mk (c.toUpper :: rest)

/-- determineComponentName of src/core/parser.ts (lines 209-239): a
non-default export keeps its export name; a default export takes the
declaration's own name when that is truthy (function and class declarations),
the variable name for variable declarations, and otherwise the capitalized
file base name. A function or class declaration whose own name is absent or
empty falls through to the filename fallback because the remaining checks sit
in the same if/else-if chain. -/
def determineComponentName (exportName : String) (declaration : Decl)
    (filePath : String) : String :=
  if !(exportName == "default") then exportName
  else
    match declaration with
    | .funcDecl name _ =>
      if truthyName name then name.getD "" else capitalizedFileName filePath
    | .classDecl name _ =>
      if truthyName name then name.getD "" else capitalizedFileName filePath
    | .varDecl name _ => name
    | _ => capitalizedFileName filePath

/-- extractPropsFromFunctionComponent of src/core/parser.ts (lines 249-264):
with no formal parameters the declaration yields null; otherwise the first
parameter's type is fed to the Prop Extractor. -/
def extractPropsFromFunctionComponent (componentName : String)
    (parameters : List Ty) (filePath : String) : Option ComponentInfo :=
  match parameters with
  | [] => none
  | p :: _ =>
    some { name := componentName, props := extractPropsFromParameter p,
           sourceFilePath := filePath }

/-- extractPropsFromClassComponent of src/core/parser.ts (lines 274-308): no
type parameters yields null; a first type parameter without a constraint
yields null; otherwise the constraint's type is fed to the Prop Extractor
through the same adapter as a parameter type. -/
def extractPropsFromClassComponent (componentName : String)
    (typeParamConstraints : List (Option Ty)) (filePath : String) :
    Option ComponentInfo :=
  match typeParamConstraints with
  | [] => none
  | none :: _ => none
  | some constraintTy :: _ =>
    some { name := componentName,
           props := extractPropsFromParameter constraintTy,
           sourceFilePath := filePath }

/-- parseComponentDeclaration of src/core/parser.ts (lines 342-394):
dispatches on the declaration shape; a variable declaration is recognized
only when its initializer is an arrow function; anything else yields null. -/
def parseComponentDeclaration (exportName : String) (declaration : Decl)
    (filePath : String) : Option ComponentInfo :=
  let componentName := determineComponentName exportName declaration filePath
  match declaration with
  | .funcDecl _ params =>
    extractPropsFromFunctionComponent componentName params filePath
  | .arrowFunc params =>
    extractPropsFromFunctionComponent componentName params filePath
  | .varDecl _ arrowInitParams =>
    match arrowInitParams with
    | some params =>
      extractPropsFromFunctionComponent componentName params filePath
    | none => none
  | .classDecl _ tps =>
    extractPropsFromClassComponent componentName tps filePath
  | .otherDecl => none

/-! The Code Emitter: generateComponentString of src/core/generator.ts. -/

/-- The single-quote character used by the PropTypes.oneOf rendering. -/
def quoteChar : String := String.singleton (Char.ofNat 39)

/-- The per-value rendering lambda of PROP_TYPE_VALIDATORS.oneOf in
src/constants.ts (staged as the second document of src/generator.ts, lines
47-54): a string value is wrapped in single quotes, any other value is passed
through String(). For the non-string cases String() prints a number in
decimal (the Int carrier renders the integral literals the loop collects),
a boolean as "true"/"false", the undefined value as "undefined", and a
non-primitive object such as ts.PseudoBigInt via the default object
toString. -/
def renderLitVal : LitVal → String
  | .str s => quoteChar ++ s ++ quoteChar
  | .num n => toString n
  | .bool b => if b then "true" else "false"
  | .undef => "undefined"
  | .other => "[object Object]"

mutual

/-- generatePropTypeValidator of src/core/generator.ts (lines 39-66), its
switch inlined with the PROP_TYPE_VALIDATORS table it dispatches into
(src/constants.ts, staged as the second document of src/generator.ts, lines
38-62): primitive renders PropTypes.bool for boolean and PropTypes.<name>
otherwise; array, object, function and any render the fixed strings; oneOf
joins the rendered literal values with ", " inside PropTypes.oneOf([...]);
oneOfType joins each member's own rendering - the table receives
generatePropTypeValidator itself as the generator callback - inside
PropTypes.oneOfType([...]). The unreachable default case behind the
exhaustiveness check needs no arm in an exhaustive match. -/
def generatePropTypeValidator : NormalizedPropType → String
  | .primitive name =>
    if name == "boolean" then "PropTypes.bool" else "PropTypes." ++ name
  | .array => "PropTypes.array"
  | .object => "PropTypes.object"
  | .func => "PropTypes.func"
  | .any => "PropTypes.any"
  | .oneOf values =>
    "PropTypes.oneOf([" ++ String.intercalate ", " (values.map renderLitVal)
      ++ "])"
  | .oneOfType types =>
    "PropTypes.oneOfType([" ++ String.intercalate ", " (renderValidatorList types)
      ++ "])"

/-- Rendering of each member of a oneOfType, in order. -/
def renderValidatorList : List NormalizedPropType → List String
  | [] => []
  | t :: ts => generatePropTypeValidator t :: renderValidatorList ts

end

/-- createPropValidator of src/core/generator.ts (lines 74-79): appends the
required marker .isRequired when the prop is required. -/
def createPropValidator (p : ParsedProp) : String :=
  if p.required then generatePropTypeValidator p.type ++ ".isRequired"
  else generatePropTypeValidator p.type

/-- generateComponentString of src/core/generator.ts (lines 90-104): one line
per prop in discovery order, a single empty line pushed when there are no
props, all joined with newlines inside the fixed assignment template. -/
def generateComponentString (componentInfo : ComponentInfo) : String :=
  let propLines := componentInfo.props.map (fun p =>
    "  " ++ p.name ++ ": " ++ createPropValidator p ++ ",")
  let propLines := if propLines.length == 0 then [""] else propLines
  componentInfo.name ++ ".propTypes = \x7b\n" ++
    String.intercalate "\n" propLines ++ "\n\x7d;"

/-! Concrete resolved types, as the TypeScript checker would present them,
used to instantiate the theorems below. -/

/-- The primitive type string. -/
def tyString : Ty :=
  .mk "string" false [] false false 0 false true false false false false false
    .undef []

/-- The type undefined. -/
def tyUndef : Ty :=
  .mk "undefined" false [] false false 0 false false false true false false
    false .undef []

/-- The union string | undefined, as produced for an optional string member:
printed text "string | undefined", a union of the two members above. -/
def tyOptString : Ty :=
  .mk "string | undefined" true [tyString, tyUndef] false false 0 false false
    false false false false false .undef []

/-- The boolean literal type false. -/
def tyFalse : Ty :=
  .mk "false" false [] false false 0 false false false false false false true
    (.bool false) []

/-- The boolean literal type true. -/
def tyTrue : Ty :=
  .mk "true" false [] false false 0 false false false false false false true
    (.bool true) []

/-- The primitive boolean as the checker represents it: internally the union
of the literals false and true, printed as "boolean". -/
def tyBoolUnion : Ty :=
  .mk "boolean" true [tyFalse, tyTrue] false false 0 false false false false
    false false false .undef []

/-- A type the classifier cannot place: an unresolved type-parameter-like
text, no structural features. -/
def tyFallback : Ty :=
  .mk "E" false [] false false 0 false false false false false false false
    .undef []

/-- Printed text of the string literal type with value a. -/
def litAText : String := quoteChar ++ "a" ++ quoteChar

/-- Printed text of the string literal type with value b. -/
def litBText : String := quoteChar ++ "b" ++ quoteChar

/-- The string literal type with value a. -/
def tyLitA : Ty :=
  .mk litAText false [] false false 0 false false false false true false true
    (.str "a") []

/-- The string literal type with value b. -/
def tyLitB : Ty :=
  .mk litBText false [] false false 0 false false false false true false true
    (.str "b") []

/-- The literal union with an undefined member, printed as the checker would. -/
def tyLitUnion3 : Ty :=
  .mk (litAText ++ " | " ++ litBText ++ " | undefined") true
    [tyLitA, tyLitB, tyUndef] false false 0 false false false false false
    false false .undef []

/-- The duplicate-preserving literal union a | b | a. -/
def tyLitDup : Ty :=
  .mk (litAText ++ " | " ++ litBText ++ " | " ++ litAText) true
    [tyLitA, tyLitB, tyLitA] false false 0 false false false false false
    false false .undef []

/-- A string literal type that is not a union but whose printed text contains
the substring matched by the optional-text check. -/
def tyLitOpt : Ty :=
  .mk (quoteChar ++ "a | undefined" ++ quoteChar) false [] false false 0 false
    false false false true false true (.str "a | undefined") []

/-- An object type with the single mandatory member x of type string. -/
def tyObjX : Ty :=
  .mk "\x7b x: string; \x7d" false [] false false 0 false false true false
    false false false .undef [("x", false, tyString)]

/-- An object type whose members are a (an object member, mandatory) followed
by b (a string member, mandatory). -/
def tyRootAB : Ty :=
  .mk "\x7b a: \x7b x: string; \x7d; b: string; \x7d" false [] false false 0
    false false true false false false false .undef
    [("a", false, tyObjX), ("b", false, tyString)]

/-! Theorems for the frozen claims. -/

/-- Claim C1, counterexample. The claim states that classifying T | undefined
yields the same variant as classifying T, never a OneOfType wrapping T. On
the code, classifying string | undefined takes the optional-text branch and
returns OneOfType([Primitive string, Any]) while classifying string returns
Primitive string: the variants differ and the result is a OneOfType, so the
optionality is folded into the returned variant. -/
theorem c1_counterexample :
    normalizePropType tyOptString =
      NormalizedPropType.oneOfType
        [NormalizedPropType.primitive "string", NormalizedPropType.any] ∧
    normalizePropType tyString = NormalizedPropType.primitive "string" ∧
    normalizePropType tyOptString ≠ normalizePropType tyString := by
  have h2 : splitUndefText "string | undefined" = "string" := by decide
  refine ⟨?_, ?_, ?_⟩
  · simp [normalizePropType, tyOptString, h2, normalizeDummy, strIncludes,
      charsInclude, List.isPrefixOf, String.toList]
  · simp [normalizePropType, tyString, strIncludes, charsInclude,
      List.isPrefixOf, String.toList]
  · simp [normalizePropType, tyOptString, tyString, h2, normalizeDummy,
      strIncludes, charsInclude, List.isPrefixOf, String.toList]

/-- Claim C1, amended: for every type whose printed text contains the
substring " | undefined" - as the printed text of T | undefined does for any
non-undefined T - classification returns a OneOfType of exactly two entries
whose second entry is Any: the optionality is folded into the returned
variant as a OneOfType wrapper, and the sibling required = false flag is
computed separately by the Prop Extractor from the member's Optional symbol
flag. -/
theorem c1_amended_optional_is_oneOfType (t : Ty)
    (h : strIncludes t.text " | undefined" = true) :
    ∃ base, normalizePropType t =
      NormalizedPropType.oneOfType [base, NormalizedPropType.any] := by
  obtain ⟨text, isUn, uTys, isArr, isTup, cs, isNum, isStr, isObj, a, b, c,
    d, e, props⟩ := t
  simp only [Ty.text] at h
  exact ⟨normalizeDummy (splitUndefText text) text, by
    simp [normalizePropType, h]⟩

/-- Claim C1, witness for the amended theorem at the concrete optional
string type. -/
theorem c1_amended_witness :
    ∃ base, normalizePropType tyOptString =
      NormalizedPropType.oneOfType [base, NormalizedPropType.any] :=
  c1_amended_optional_is_oneOfType tyOptString (by decide)

/-- Claim C2: a union type whose only literal members are exactly the boolean
literals true and false is the checker's representation of the primitive
boolean and is printed "boolean"; the classifier's exact-text check on that
printed text fires before the union block, so classification returns
Primitive(boolean) and never OneOf([true, false]). -/
theorem c2_boolean_literal_union (t : Ty)
    (htext : t.text = "boolean")
    (hu : t.isUnion = true)
    (hmem : ∀ u ∈ t.unionTypes, u.text = "true" ∨ u.text = "false") :
    normalizePropType t = NormalizedPropType.primitive "boolean" := by
  obtain ⟨text, isUn, uTys, isArr, isTup, cs, isNum, isStr, isObj, a, b, c,
    d, e, props⟩ := t
  simp only [Ty.text] at htext
  subst htext
  have hpat : (strIncludes "boolean" " | undefined" ||
      strIncludes "boolean" "|undefined") = false := by decide
  simp [normalizePropType, hpat]

/-- Claim C2, witness at the two-member union of the false and true literal
types printed "boolean". -/
theorem c2_witness :
    normalizePropType tyBoolUnion = NormalizedPropType.primitive "boolean" :=
  c2_boolean_literal_union tyBoolUnion (by decide) (by decide) (by decide)

/-- Claim C3: the classifier is total. Its result is always one of the seven
NormalizedType variants (the embedding returns, never throws), and when no
rule matches - the optional-text check, the three exact-text primitive
checks, the union check, the array/tuple/bracket-suffix check, the
call-signature check, and the isNumber/isString/isObject checks all fail -
the result is the Any fallback. -/
theorem c3_classifier_total (t : Ty) :
    ((∃ n, normalizePropType t = NormalizedPropType.primitive n) ∨
     normalizePropType t = NormalizedPropType.array ∨
     normalizePropType t = NormalizedPropType.object ∨
     normalizePropType t = NormalizedPropType.func ∨
     (∃ vs, normalizePropType t = NormalizedPropType.oneOf vs) ∨
     (∃ ts, normalizePropType t = NormalizedPropType.oneOfType ts) ∨
     normalizePropType t = NormalizedPropType.any) ∧
    (strIncludes t.text " | undefined" = false →
     strIncludes t.text "|undefined" = false →
     (t.text == "boolean") = false →
     (t.text == "string") = false →
     (t.text == "number") = false →
     t.isUnion = false →
     t.isArray = false →
     t.isTuple = false →
     strEndsWith t.text "[]" = false →
     t.callSignatures = 0 →
     t.isNumber = false →
     t.isString = false →
     t.isObject = false →
     normalizePropType t = NormalizedPropType.any) := by
  constructor
  · rcases hr : normalizePropType t with n | _ | _ | _ | vs | ts | _
    · exact Or.inl ⟨n, rfl⟩
    · exact Or.inr (Or.inl rfl)
    · exact Or.inr (Or.inr (Or.inl rfl))
    · exact Or.inr (Or.inr (Or.inr (Or.inl rfl)))
    · exact Or.inr (Or.inr (Or.inr (Or.inr (Or.inl ⟨vs, rfl⟩))))
    · exact Or.inr (Or.inr (Or.inr (Or.inr (Or.inr (Or.inl ⟨ts, rfl⟩)))))
    · exact Or.inr (Or.inr (Or.inr (Or.inr (Or.inr (Or.inr rfl)))))
  · obtain ⟨text, isUn, uTys, isArr, isTup, cs, isNum, isStr, isObj, a, b, c,
      d, e, props⟩ := t
    intro h1 h2 h3 h4 h5 h6 h7 h8 h9 h10 h11 h12 h13
    simp only [Ty.text, Ty.isUnion, Ty.isArray, Ty.isTuple,
      Ty.callSignatures, Ty.isNumber, Ty.isString, Ty.isObject] at *
    subst h6 h7 h8 h10 h11 h12 h13
    simp [normalizePropType, h1, h2, h3, h4, h5, h9]

/-- Claim C3, witness: the concrete type with no matching rule classifies to
Any through the second conjunct of the totality theorem. -/
theorem c3_witness : normalizePropType tyFallback = NormalizedPropType.any :=
  (c3_classifier_total tyFallback).2 (by decide) (by decide) (by decide)
    (by decide) (by decide) (by decide) (by decide) (by decide) (by decide)
    (by decide) (by decide) (by decide) (by decide)

/-- Helper: the optional-text branch of the classifier, as an equation on any
type whose printed text contains one of the two substrings. -/
theorem normalizePropType_text_branch (t : Ty)
    (h : (strIncludes t.text " | undefined" ||
      strIncludes t.text "|undefined") = true) :
    normalizePropType t =
      NormalizedPropType.oneOfType
        [normalizeDummy (splitUndefText t.text) t.text,
         NormalizedPropType.any] := by
  obtain ⟨text, isUn, uTys, isArr, isTup, cs, isNum, isStr, isObj, a, b, c,
    d, e, props⟩ := t
  simp only [Ty.text] at h ⊢
  simp [normalizePropType, h]

/-- Claim C10: when the printed text of the input contains " | undefined" or
"|undefined", classification is decided by that text alone, before any
structural query: the result is exactly the OneOfType of two entries - the
classification of the text before the first regex match, and Any - and any
two types with the same printed text classify identically, whether or not
they are structurally unions. -/
theorem c10_text_decides_optional (t : Ty)
    (h : (strIncludes t.text " | undefined" ||
      strIncludes t.text "|undefined") = true) :
    normalizePropType t =
      NormalizedPropType.oneOfType
        [normalizeDummy (splitUndefText t.text) t.text,
         NormalizedPropType.any] ∧
    (∀ u : Ty, u.text = t.text → normalizePropType u = normalizePropType t) := by
  obtain ⟨text, isUn, uTys, isArr, isTup, cs, isNum, isStr, isObj, a, b, c,
    d, e, props⟩ := t
  simp only [Ty.text] at h ⊢
  constructor
  · simp [normalizePropType, h]
  · intro u hu
    obtain ⟨text2, isUn2, uTys2, isArr2, isTup2, cs2, isNum2, isStr2, isObj2,
      a2, b2, c2, d2, e2, props2⟩ := u
    simp only [Ty.text] at hu
    subst hu
    simp [normalizePropType, h]

/-- Claim C10, witness: a string literal type - not a union - whose quoted
text contains " | undefined" takes the text branch and classifies to the
OneOfType of the base-text classification and Any. -/
theorem c10_witness :
    normalizePropType tyLitOpt =
      NormalizedPropType.oneOfType
        [normalizeDummy (splitUndefText (Ty.text tyLitOpt)) (Ty.text tyLitOpt),
         NormalizedPropType.any] ∧
    Ty.isUnion tyLitOpt = false :=
  ⟨(c10_text_decides_optional tyLitOpt (by decide)).1, by decide⟩

/-- A union member the literal-collection loop accepts: a string or number
literal, a member printed "true" or "false", or an isLiteral member whose
runtime literal value is a string, a number or a boolean. -/
def isSupportedLiteral (u : Ty) : Bool :=
  u.isStringLiteral || u.isNumberLiteral || u.text == "true" ||
    u.text == "false" ||
    (u.isLiteral && (match u.litValue with
      | .str _ => true
      | .num _ => true
      | .bool _ => true
      | _ => false))

/-- The value the literal-collection loop pushes for a supported member, in
the branch order of the source. -/
def pushedLitVal (u : Ty) : LitVal :=
  if u.isStringLiteral then u.litValue
  else if u.isNumberLiteral then u.litValue
  else if u.text == "true" then .bool true
  else if u.text == "false" then .bool false
  else u.litValue

theorem collectLiterals_eq_map (l : List Ty)
    (h : ∀ u ∈ l, isSupportedLiteral u = true) :
    collectLiterals l = some (l.map pushedLitVal) := by
  induction l with
  | nil => rfl
  | cons u rest ih =>
    have hu := h u (List.mem_cons_self u rest)
    have hrest := ih (fun v hv => h v (List.mem_cons_of_mem u hv))
    simp only [List.map_cons]
    by_cases h1 : u.isStringLiteral = true
    · simp [collectLiterals, pushedLitVal, h1, hrest]
    · by_cases h2 : u.isNumberLiteral = true
      · simp [collectLiterals, pushedLitVal, h1, h2, hrest]
      · by_cases h3 : (u.text == "true") = true
        · simp [collectLiterals, pushedLitVal, h1, h2, h3, hrest]
        · by_cases h4 : (u.text == "false") = true
          · simp [collectLiterals, pushedLitVal, h1, h2, h3, h4, hrest]
          · have h5 : u.isLiteral = true ∧
                (match u.litValue with
                  | .str _ => true
                  | .num _ => true
                  | .bool _ => true
                  | _ => false) = true := by
              simp only [isSupportedLiteral, h1, h2, h3, h4, Bool.false_or,
                Bool.and_eq_true] at hu
              exact hu
            rcases hv : u.litValue with s | n | bv | _ | _
            · simp [collectLiterals, pushedLitVal, h1, h2, h3, h4, h5.1, hv,
                hrest]
            · simp [collectLiterals, pushedLitVal, h1, h2, h3, h4, h5.1, hv,
                hrest]
            · simp [collectLiterals, pushedLitVal, h1, h2, h3, h4, h5.1, hv,
                hrest]
            · exact absurd (hv ▸ h5.2) (by simp)
            · exact absurd (hv ▸ h5.2) (by simp)

/-- Claim C4, counterexample. The claim quantifies over unions all of whose
members excluding undefined are literals, and demands OneOf of the literal
values. The three-member union a | b | undefined is such a union, but its
printed text contains " | undefined", so the optional-text branch fires and
returns OneOfType([Any, Any]) - never a OneOf. (The literal-collection loop
would not reach OneOf either: it has no exclusion for undefined members.) -/
theorem c4_counterexample :
    normalizePropType tyLitUnion3 =
      NormalizedPropType.oneOfType
        [NormalizedPropType.any, NormalizedPropType.any] ∧
    (∀ vs, normalizePropType tyLitUnion3 ≠ NormalizedPropType.oneOf vs) := by
  have h1 : (strIncludes (Ty.text tyLitUnion3) " | undefined" ||
      strIncludes (Ty.text tyLitUnion3) "|undefined") = true := by decide
  have h2 : normalizeDummy (splitUndefText (Ty.text tyLitUnion3))
      (Ty.text tyLitUnion3) = NormalizedPropType.any := by
    have hsplit : splitUndefText (Ty.text tyLitUnion3) =
        litAText ++ " | " ++ litBText := by decide
    have f1 : (strIncludes (litAText ++ " | " ++ litBText) " | undefined" ||
        strIncludes (litAText ++ " | " ++ litBText) "|undefined") = false := by
      decide
    have f2 : ((litAText ++ " | " ++ litBText) == "boolean") = false := by
      decide
    have f3 : ((litAText ++ " | " ++ litBText) == "string") = false := by
      decide
    have f4 : ((litAText ++ " | " ++ litBText) == "number") = false := by
      decide
    have f5 : strEndsWith (litAText ++ " | " ++ litBText) "[]" = false := by
      decide
    have f6 : strIncludes (Ty.text tyLitUnion3) "string" = false := by decide
    rw [normalizeDummy, hsplit]
    simp [f1, f2, f3, f4, f5, f6]
  have h3 := normalizePropType_text_branch tyLitUnion3 h1
  refine ⟨?_, ?_⟩
  · rw [h3, h2]
  · intro vs
    rw [h3, h2]
    simp

/-- Claim C4, amended: for every union type that contains no undefined
member, whose printed text does not contain the optional-text substrings and
is not exactly one of the primitive keywords, and all of whose members are
literals the collection loop supports, classification returns OneOf with
exactly the pushed literal values in original declaration order - duplicates
kept, nothing reordered. (A union that does contain undefined instead takes
the optional-type paths and yields OneOfType, and the true | false union is
printed "boolean" and yields Primitive(boolean).) -/
theorem c4_amended_literal_union (t : Ty)
    (hpat1 : strIncludes t.text " | undefined" = false)
    (hpat2 : strIncludes t.text "|undefined" = false)
    (hb : (t.text == "boolean") = false)
    (hs : (t.text == "string") = false)
    (hn : (t.text == "number") = false)
    (hu : t.isUnion = true)
    (hundef : ∀ u ∈ t.unionTypes, u.isUndefined = false)
    (hlit : ∀ u ∈ t.unionTypes, isSupportedLiteral u = true)
    (hne : 0 < t.unionTypes.length) :
    normalizePropType t =
      NormalizedPropType.oneOf (t.unionTypes.map pushedLitVal) := by
  obtain ⟨text, isUn, uTys, isArr, isTup, cs, isNum, isStr, isObj, a, b, c,
    d, e, props⟩ := t
  simp only [Ty.text, Ty.isUnion, Ty.unionTypes] at *
  subst hu
  have hany : uTys.any (fun u => u.isUndefined) = false := by
    rw [List.any_eq_false]
    intro u hmem
    simp [hundef u hmem]
  have hcoll := collectLiterals_eq_map uTys hlit
  simp [normalizePropType, hpat1, hpat2, hb, hs, hn, hany, hcoll,
    Nat.pos_iff_ne_zero.mp hne]

/-- Claim C4, witness for the amended theorem at the duplicate-preserving
literal union a | b | a: the values come back in declaration order with the
duplicate kept. -/
theorem c4_amended_witness :
    normalizePropType tyLitDup =
      NormalizedPropType.oneOf [.str "a", .str "b", .str "a"] := by
  have h := c4_amended_literal_union tyLitDup (by decide) (by decide)
    (by decide) (by decide) (by decide) (by decide) (by decide) (by decide)
    (by decide)
  rw [h]
  rfl

/-- Helper: with a false parent-required flag, every entry the extractor
produces - direct or nested - has required = false; by strong induction on
the size of the type. -/
theorem extract_required_false (n : Nat) :
    ∀ t : Ty, sizeOf t ≤ n →
      ∀ p ∈ extractPropsFromType t false, p.required = false := by
  induction n with
  | zero =>
    intro t hle
    obtain ⟨text, isUn, uTys, isArr, isTup, cs, isNum, isStr, isObj, a, b, c,
      d, e, props⟩ := t
    simp only [Ty.mk.sizeOf_spec] at hle
    omega
  | succ n ih =>
    intro t hle p hp
    obtain ⟨text, isUn, uTys, isArr, isTup, cs, isNum, isStr, isObj, a, b, c,
      d, e, props⟩ := t
    simp only [extractPropsFromType] at hp
    rw [List.mem_append] at hp
    rcases hp with hp | hp
    · rw [List.mem_map] at hp
      obtain ⟨m, hm, rfl⟩ := hp
      simp
    · rw [List.mem_flatMap] at hp
      obtain ⟨ms, hms, hpm⟩ := hp
      obtain ⟨⟨nm, opt, ty⟩, hmem⟩ := ms
      by_cases hc : (ty.isObject && !ty.isArray) = true
      · simp only [if_pos hc, Bool.and_false] at hpm
        refine ih ty ?_ p hpm
        have h1 := List.sizeOf_lt_of_mem hmem
        simp only [Prod.mk.sizeOf_spec] at h1
        simp only [Ty.mk.sizeOf_spec] at hle
        omega
      · simp only [if_neg hc] at hpm
        exact absurd hpm (List.not_mem_nil p)

/-- Claim C5: for every extracted member, required equals the conjunction of
the member's own non-optionality and the caller-supplied parent flag (the
direct entries of the output, its first properties-many elements, are exactly
the members rendered with required = !optional AND parentRequired); and when
the parent flag is false - as it is below any optional ancestor, at any
nesting depth - every entry of the output is non-required regardless of its
own optionality. -/
theorem c5_required_flag (t : Ty) (pr : Bool) :
    ((extractPropsFromType t pr).take t.properties.length =
      t.properties.map (fun m =>
        ({ name := m.1, type := normalizePropType m.2.2,
           required := !m.2.1 && pr } : ParsedProp))) ∧
    (pr = false → ∀ p ∈ extractPropsFromType t pr, p.required = false) := by
  constructor
  · obtain ⟨text, isUn, uTys, isArr, isTup, cs, isNum, isStr, isObj, a, b, c,
      d, e, props⟩ := t
    simp only [extractPropsFromType, Ty.properties]
    exact List.take_left' (by simp)
  · intro hpr
    subst hpr
    exact extract_required_false (sizeOf t) t le_rfl

/-- Claim C5, witness: the mandatory member x extracted below a false parent
flag (an optional ancestor) comes out non-required. -/
theorem c5_witness :
    ParsedProp.required
      { name := "x", type := NormalizedPropType.primitive "string",
        required := false } = false :=
  (c5_required_flag tyObjX false).2 rfl
    { name := "x", type := NormalizedPropType.primitive "string",
      required := false }
    (by
      simp only [tyObjX, extractPropsFromType]
      apply List.mem_append_left
      simp [normalizePropType, tyString, strIncludes, charsInclude,
        List.isPrefixOf, String.toList])

/-- Helper: flatMap over an attached list that only uses the value. -/
theorem attach_flatMap_val {α β : Type} (l : List α) (f : α → List β) :
    l.attach.flatMap (fun m => f m.val) = l.flatMap f := by
  rw [List.flatMap, List.flatMap]
  congr 1
  rw [List.attach_map_coe]

/-- Helper: a flatMap whose body is guarded by an if equals the flatMap over
the filtered list. -/
theorem flatMap_if_eq_filter {α β : Type} (l : List α) (p : α → Bool)
    (g : α → List β) :
    l.flatMap (fun x => if p x then g x else []) = (l.filter p).flatMap g := by
  induction l with
  | nil => rfl
  | cons a l ih =>
    rw [List.flatMap_cons, List.filter_cons]
    by_cases h : p a = true
    · rw [if_pos h, if_pos h, List.flatMap_cons, ih]
    · rw [if_neg h, if_neg h, ih]
      simp

/-- Claim C6, counterexample. The claim states that the results of recursing
into an Object-classified member are appended immediately after that member,
before the remaining direct members. On the code, for a root with members
a (an object with member x) followed by b, the output order is a, b, x - all
direct members first, then the nested results - not a, x, b. -/
theorem c6_counterexample :
    (extractPropsFromType tyRootAB true).map ParsedProp.name =
      ["a", "b", "x"] ∧
    (extractPropsFromType tyRootAB true).map ParsedProp.name ≠
      ["a", "x", "b"] := by
  have hroot : (extractPropsFromType tyRootAB true).map ParsedProp.name =
      ["a", "b", "x"] := by
    simp [extractPropsFromType, tyRootAB, tyObjX, tyString, normalizePropType,
      strIncludes, charsInclude, List.isPrefixOf, String.toList, strEndsWith,
      Ty.isObject, Ty.isArray, List.attach, List.attachWith]
  exact ⟨hroot, by rw [hroot]; simp⟩

/-- Claim C6, amended: the extractor emits all direct members of the type
first, in declaration order, and then appends the recursive extractions of
its Object-shaped (and not array) members, flattened, in the order of those
members - not interleaved immediately after each member. -/
theorem c6_amended_nested_after_all_directs (t : Ty) (pr : Bool) :
    extractPropsFromType t pr =
      t.properties.map (fun m =>
        ({ name := m.1, type := normalizePropType m.2.2,
           required := !m.2.1 && pr } : ParsedProp)) ++
      (t.properties.filter (fun m => m.2.2.isObject && !m.2.2.isArray)).flatMap
        (fun m => extractPropsFromType m.2.2 (!m.2.1 && pr)) := by
  obtain ⟨text, isUn, uTys, isArr, isTup, cs, isNum, isStr, isObj, a, b, c,
    d, e, props⟩ := t
  simp only [extractPropsFromType, Ty.properties]
  congr 1
  rw [attach_flatMap_val props
    (fun m => if m.2.2.isObject && !m.2.2.isArray then
      extractPropsFromType m.2.2 (!m.2.1 && pr) else [])]
  rw [flatMap_if_eq_filter]

/-- Claim C7: an exported function-like declaration with zero formal
parameters yields no ComponentInfo, through every function-like path of the
Declaration Locator - named or unnamed function declarations, arrow
functions, and variables initialized with arrow functions - and the result is
the null value, not an error (the embedding is a total function into Option,
mirroring the early return of null in the source). -/
theorem c7_zero_params_yield_none :
    (∀ componentName filePath : String,
       extractPropsFromFunctionComponent componentName [] filePath = none) ∧
    (∀ (exportName filePath : String) (nm : Option String),
       parseComponentDeclaration exportName (.funcDecl nm []) filePath =
         none) ∧
    (∀ exportName filePath : String,
       parseComponentDeclaration exportName (.arrowFunc []) filePath =
         none) ∧
    (∀ exportName filePath v : String,
       parseComponentDeclaration exportName (.varDecl v (some [])) filePath =
         none) :=
  ⟨fun _ _ => rfl, fun _ _ _ => rfl, fun _ _ => rfl, fun _ _ _ => rfl⟩

/-- Claim C8: for a ComponentInfo with an empty prop list, the emitter
produces the assignment block with a single empty line between the braces -
exactly the component name followed by ".propTypes = ", an opening brace,
two newlines, the closing brace and a semicolon - not an empty block body. -/
theorem c8_empty_props_block (name filePath : String) :
    generateComponentString
      { name := name, props := [], sourceFilePath := filePath } =
      name ++ ".propTypes = \x7b\n\n\x7d;" := by
  simp only [generateComponentString, List.map_nil, List.length_nil,
    String.append_assoc]
  congr 1

/-- Claim C9: name resolution for exported declarations. A non-default export
keeps its declared name. A default export resolves to the underlying
declaration's own name when it has one (function and class declarations with
a non-empty name, and variable declarations, which always carry their name),
and otherwise to the file's base name, extension stripped, with its first
character upper-cased; in particular a default-exported unnamed function in
the unit card.ext resolves to Card. -/
theorem c9_default_name_resolution :
    (∀ (exportName : String) (d : Decl) (filePath : String),
       exportName ≠ "default" →
       determineComponentName exportName d filePath = exportName) ∧
    (∀ (filePath nm : String) (ps : List Ty), nm ≠ "" →
       determineComponentName "default" (.funcDecl (some nm) ps) filePath =
         nm) ∧
    (∀ (filePath : String) (ps : List Ty),
       determineComponentName "default" (.funcDecl none ps) filePath =
         capitalizedFileName filePath) ∧
    (∀ (filePath nm : String) (tps : List (Option Ty)), nm ≠ "" →
       determineComponentName "default" (.classDecl (some nm) tps) filePath =
         nm) ∧
    (∀ (filePath : String) (tps : List (Option Ty)),
       determineComponentName "default" (.classDecl none tps) filePath =
         capitalizedFileName filePath) ∧
    (∀ (filePath nm : String) (ip : Option (List Ty)),
       determineComponentName "default" (.varDecl nm ip) filePath = nm) ∧
    (∀ ps : List Ty,
       determineComponentName "default" (.funcDecl none ps) "card.ext" =
         "Card") := by
  have hcard : capitalizedFileName "card.ext" = "Card" := by decide
  refine ⟨?_, ?_, ?_, ?_, ?_, ?_, ?_⟩
  · intro exportName d filePath hne
    simp [determineComponentName, hne]
  · intro filePath nm ps hnm
    simp [determineComponentName, truthyName, hnm]
  · intro filePath ps
    simp [determineComponentName, truthyName]
  · intro filePath nm tps hnm
    simp [determineComponentName, truthyName, hnm]
  · intro filePath tps
    simp [determineComponentName, truthyName]
  · intro filePath nm ip
    simp [determineComponentName]
  · intro ps
    simp [determineComponentName, truthyName, hcard]

/-- Claim C9, witness: a non-default export keeps its name, a named default
function keeps its own name, and the unnamed default function in card.ext
resolves to Card. -/
theorem c9_witness :
    determineComponentName "Button" Decl.otherDecl "x.tsx" = "Button" ∧
    determineComponentName "default" (Decl.funcDecl (some "Named") [])
      "x.tsx" = "Named" ∧
    determineComponentName "default" (Decl.funcDecl none []) "card.ext" =
      "Card" :=
  ⟨c9_default_name_resolution.1 "Button" Decl.otherDecl "x.tsx" (by decide),
   c9_default_name_resolution.2.1 "x.tsx" "Named" [] (by decide),
   c9_default_name_resolution.2.2.2.2.2.2 []⟩

end TsToPropTypes
